import Mathlib

/-!
# Verification of the chain-monitor frontend state engine

Shallow embedding of the `ChainsState` / `App` classes of the chain-monitor
dashboard (`src/assets/script.js`, latest revision), together with a model of
the backend `StateMatrix.apply` operation that the spec describes but whose
implementation (the Rust backend) is not among the given sources.

Conventions of the embedding:
* JS arrays indexed by possibly-negative integers (the result of a failed
  `findIndex` is `-1`) are modelled as total functions `Int → Option _`;
  a key that was never assigned maps to `none` (JS `undefined`).
* JS `undefined < h` evaluates to `false` (NaN comparison); `jsUndefLt`
  models this.
* JS loose inequality `!=` between a string and a number coerces the string
  to a number; `jsLooseNe` models this for the values that occur here:
  a string that is a plain decimal numeral equals the corresponding number,
  any other string compares unequal.
-/

/-- A source entry of the registry: `{id, shortName, fullName}`. -/
structure Source where
  id : String
  shortName : String
  fullName : String
deriving DecidableEq, Repr

/-- A chain entry of the registry: `{id, fullName, blockTimeSecs}`. -/
structure Chain where
  id : String
  fullName : String
  blockTimeSecs : Nat
deriving DecidableEq, Repr

/-- The per-(source, chain) state carried by an `update` frame and stored in
`this.states`; the fields the frontend reads are `height`, `hash` and
`firstSeenTs`. -/
structure ChainState where
  height : Nat
  hash : String
  firstSeenTs : Nat
deriving DecidableEq, Repr

/-- JS `array.findIndex(p)`: the index of the first match, `-1` when none. -/
def jsFindIndex (l : List α) (p : α → Bool) : Int :=
  match l.findIdx? p with
  | some i => (i : Int)
  | none => -1

/-- JS `undefined < h` is `false` (NaN comparison); `b < h` otherwise. -/
def jsUndefLt : Option Nat → Nat → Bool
  | none, _ => false
  | some b, h => b < h

/-- Decimal value of a character list (most significant digit first),
accumulator style. -/
def digitsToNat (acc : Nat) : List Char → Nat
  | [] => acc
  | c :: rest => digitsToNat (acc * 10 + (c.toNat - '0'.toNat)) rest

/-- The number a string coerces to under JS `ToNumber`, restricted to the
fragment needed here: a non-empty all-digit string denotes its decimal value,
anything else is `none` (NaN). -/
def jsStringToNat? (s : String) : Option Nat :=
  if s.data ≠ [] ∧ s.data.all (fun c => c.isDigit) then some (digitsToNat 0 s.data)
  else none

/-- JS loose inequality `s != n` between a string and a number: the string is
coerced to a number, so a plain decimal numeral equal to `n` compares equal
and every other string compares unequal. -/
def jsLooseNe (s : String) (n : Nat) : Bool :=
  !(jsStringToNat? s == some n)

/-- The state held by the `ChainsState` class: the registry lists, the
sparse `states` array keyed by flattened (source, chain) index, the
`bestHeight` array keyed by chain index, and the `enableSoundFor`
preference mapping (a set of keys). -/
structure ChainsState where
  sources : List Source
  chains : List Chain
  states : Int → Option ChainState
  bestHeight : Int → Option Nat
  enableSoundFor : List String

/-- The `ChainsState` constructor: empty `states`, `bestHeight` an array of
`chains.length` zeroes, `enableSoundFor` loaded from storage (passed in). -/
def ChainsState.init (sources : List Source) (chains : List Chain)
    (enableSoundFor : List String) : ChainsState :=
  { sources := sources
    chains := chains
    states := fun _ => none
    bestHeight := fun i => if 0 ≤ i ∧ i < (chains.length : Int) then some 0 else none
    enableSoundFor := enableSoundFor }

/-- `enableSoundForIdx(source, chain)`: the preference key. -/
def ChainsState.enableSoundForIdx (_st : ChainsState) (source chain : String) : String :=
  source ++ "###" ++ chain

/-- `getEnableSoundFor(source, chain)`: key present in the mapping, else `false`. -/
def ChainsState.getEnableSoundFor (st : ChainsState) (source chain : String) : Bool :=
  st.enableSoundFor.contains (st.enableSoundForIdx source chain)

/-- `getIdx(sourceIdx, chainIdx) = sourceIdx * this.chains.length + chainIdx`. -/
def ChainsState.getIdx (st : ChainsState) (sourceIdx chainIdx : Int) : Int :=
  sourceIdx * (st.chains.length : Int) + chainIdx

/-- `getIdxByIds(source, chain)`: resolve both ids by `findIndex` and flatten. -/
def ChainsState.getIdxByIds (st : ChainsState) (source chain : String) : Int :=
  st.getIdx
    (jsFindIndex st.sources (fun element => element.id == source))
    (jsFindIndex st.chains (fun element => element.id == chain))

/-- `getChainIdx(chain)`: `findIndex` of the chain id. -/
def ChainsState.getChainIdx (st : ChainsState) (chain : String) : Int :=
  jsFindIndex st.chains (fun element => element.id == chain)

/-- `ChainsState.update(source, chain, chainState)`: store the new state at the
flattened index, raise `bestHeight` for the chain when exceeded, and play the
sound iff `(prevState === undefined || prevState.hash != chainState.height)`
(note: the source compares the previous *hash* against the new *height*) and
the pair is sound-enabled. Returns the new state and whether the sound fired. -/
def ChainsState.update (st : ChainsState) (source chain : String)
    (chainState : ChainState) : ChainsState × Bool :=
  let stateIdx := st.getIdxByIds source chain
  let prevState := st.states stateIdx
  let states' := fun i => if i = stateIdx then some chainState else st.states i
  let bestHeightIdx := st.getChainIdx chain
  let bestHeight' :=
    if jsUndefLt (st.bestHeight bestHeightIdx) chainState.height then
      fun i => if i = bestHeightIdx then some chainState.height else st.bestHeight i
    else
      st.bestHeight
  let changedJs :=
    match prevState with
    | none => true
    | some p => jsLooseNe p.hash chainState.height
  let sound := changedJs && st.getEnableSoundFor source chain
  ({ st with states := states', bestHeight := bestHeight' }, sound)

/-- An `update` frame's payload: `msg.source`, `msg.chain`, and the message
itself as the stored chain state. -/
structure UpdateEv where
  source : String
  chain : String
  state : ChainState

/-- Apply a sequence of `update` frames in receipt order. -/
def applyUpdates (st : ChainsState) (us : List UpdateEv) : ChainsState :=
  us.foldl (fun s e => (s.update e.source e.chain e.state).1) st

/-- The maximum `height` among the updates of a sequence whose `chain` id
resolves (by `findIndex` over the registry's chain list) to index `c`;
`0` when there are none (the value `bestHeight` entries are reset to). -/
def maxHeightForChain (chains : List Chain) (c : Nat) : List UpdateEv → Nat
  | [] => 0
  | e :: rest =>
    if jsFindIndex chains (fun element => element.id == e.chain) = (c : Int) then
      max e.state.height (maxHeightForChain chains c rest)
    else
      maxHeightForChain chains c rest

lemma ChainsState.update_chains (st : ChainsState) (source chain : String)
    (cs : ChainState) : ((st.update source chain cs).1).chains = st.chains := rfl

lemma ChainsState.update_bestHeight_at (st : ChainsState) (source chain : String)
    (cs : ChainState) (c : Nat) (b : Nat) (hb : st.bestHeight (c : Int) = some b) :
    ((st.update source chain cs).1).bestHeight (c : Int) =
      some (if st.getChainIdx chain = (c : Int) then max b cs.height else b) := by
  by_cases hc : st.getChainIdx chain = (c : Int)
  · simp only [ChainsState.update, hc, hb, jsUndefLt, if_pos]
    by_cases hlt : b < cs.height
    · simp [hlt, Nat.max_eq_right (Nat.le_of_lt hlt)]
    · simp [hlt, hb, Nat.max_eq_left (Nat.le_of_not_lt hlt)]
  · simp only [ChainsState.update, hc, if_neg hc]
    by_cases hlt : jsUndefLt (st.bestHeight (st.getChainIdx chain)) cs.height
    · simp [hlt, hc, hb, Ne.symm hc]
    · simp [hlt, hb]

lemma applyUpdates_bestHeight (us : List UpdateEv) (chains : List Chain)
    (st : ChainsState) (hch : st.chains = chains) (c : Nat) (b : Nat)
    (hb : st.bestHeight (c : Int) = some b) :
    (applyUpdates st us).bestHeight (c : Int) =
      some (max b (maxHeightForChain chains c us)) := by
  induction us generalizing st b with
  | nil => simpa [applyUpdates, maxHeightForChain, Nat.max_zero] using hb
  | cons e rest ih =>
    have hstep := st.update_bestHeight_at e.source e.chain e.state c b hb
    have hch' : ((st.update e.source e.chain e.state).1).chains = chains := by
      rw [ChainsState.update_chains, hch]
    have := ih ((st.update e.source e.chain e.state).1) hch' _ hstep
    show (applyUpdates ((st.update e.source e.chain e.state).1) rest).bestHeight _ = _
    rw [this, maxHeightForChain]
    have hres : st.getChainIdx e.chain
        = jsFindIndex chains (fun element => element.id == e.chain) := by
      rw [ChainsState.getChainIdx, hch]
    by_cases hcond : jsFindIndex chains (fun element => element.id == e.chain) = (c : Int)
    · rw [if_pos hcond, if_pos (hres.trans hcond), Nat.max_assoc]
    · rw [if_neg hcond, if_neg (fun h => hcond (hres.symm.trans h))]

lemma maxHeightForChain_append_le (chains : List Chain) (c : Nat)
    (us : List UpdateEv) (e : UpdateEv) :
    maxHeightForChain chains c us ≤ maxHeightForChain chains c (us ++ [e]) := by
  induction us with
  | nil => exact Nat.zero_le _
  | cons f rest ih =>
    simp only [List.cons_append, maxHeightForChain]
    split_ifs
    · exact max_le_max (Nat.le_refl _) ih
    · exact ih

/-- C1: after an init, `bestHeight[chain]` starts at zero, after any sequence
of updates it equals the maximum height among the updates received for that
chain (across all sources), and appending one more update can only increase
that maximum, so `bestHeight[chain]` is monotonically non-decreasing. -/
theorem c1_bestHeight_max_and_monotone (sources : List Source) (chains : List Chain)
    (prefs : List String) (us : List UpdateEv) (e : UpdateEv) (c : Nat)
    (hc : c < chains.length) :
    (ChainsState.init sources chains prefs).bestHeight (c : Int) = some 0
    ∧ (applyUpdates (ChainsState.init sources chains prefs) us).bestHeight (c : Int)
        = some (maxHeightForChain chains c us)
    ∧ maxHeightForChain chains c us ≤ maxHeightForChain chains c (us ++ [e]) := by
  have h0 : (ChainsState.init sources chains prefs).bestHeight (c : Int) = some 0 := by
    simp only [ChainsState.init]
    rw [if_pos]
    exact ⟨Int.ofNat_nonneg c, by exact_mod_cast hc⟩
  refine ⟨h0, ?_, maxHeightForChain_append_le chains c us e⟩
  have := applyUpdates_bestHeight us chains (ChainsState.init sources chains prefs)
    rfl c 0 h0
  simpa [Nat.zero_max] using this

/-- Concrete registry fixture: two sources `A` and `B`. -/
def wSources : List Source := [⟨"A", "A", "Source A"⟩, ⟨"B", "B", "Source B"⟩]

/-- Concrete registry fixture: one chain `X`. -/
def wChains : List Chain := [⟨"X", "Chain X", 600⟩]

/-- Concrete observation fixture: height 100, hash `h1`. -/
def wCs1 : ChainState := ⟨100, "h1", 1000⟩

/-- Concrete observation fixture: height 99, hash `h2`. -/
def wCs2 : ChainState := ⟨99, "h2", 1001⟩

/-- Concrete update sequence fixture for chain `X`. -/
def wUs : List UpdateEv := [⟨"A", "X", wCs1⟩, ⟨"B", "X", wCs2⟩]

/-- Concrete extra update fixture for chain `X`. -/
def wEv : UpdateEv := ⟨"B", "X", ⟨80, "h3", 1002⟩⟩

theorem c1_witness :
    (ChainsState.init wSources wChains []).bestHeight ((0 : Nat) : Int) = some 0
    ∧ (applyUpdates (ChainsState.init wSources wChains []) wUs).bestHeight ((0 : Nat) : Int)
        = some (maxHeightForChain wChains 0 wUs)
    ∧ maxHeightForChain wChains 0 wUs ≤ maxHeightForChain wChains 0 (wUs ++ [wEv]) :=
  c1_bestHeight_max_and_monotone wSources wChains [] wUs wEv 0 (by decide)

/-- The spec's notion of a changed observation, written from the spec's own
words ("`changed` = previous is absent, or `previous.height != height`, or
`previous.hash != hash`"), for comparison against the code's alert test. -/
def specChanged (previous : Option ChainState) (height : Nat) (hash : String) : Bool :=
  match previous with
  | none => true
  | some p => p.height != height || p.hash != hash

/-- State after an init with sound enabled for pair (A, X). -/
def c2St0 : ChainsState := ChainsState.init wSources wChains ["A###X"]

/-- State after storing observation (height 100, hash `h1`) for (A, X). -/
def c2St1 : ChainsState := (c2St0.update "A" "X" wCs1).1

/-- C2: re-delivering the identical (height 100, hash `h1`) update for the
enabled pair (A, X) fires the sound, because the code compares the previous
*hash* `h1` against the new *height* 100 (loosely unequal), even though the
spec's notion of `changed` is false for this redelivery: the claimed
"alert iff enabled and changed" rule does not hold of the code. -/
theorem c2_redelivery_fires_alert :
    (c2St1.update "A" "X" wCs1).2 = true
    ∧ specChanged (c2St1.states (c2St1.getIdxByIds "A" "X")) wCs1.height wCs1.hash = false := by
  constructor
  · decide
  · decide

/-- State after an init with registry sources [A, B], chains [X]. -/
def c3St0 : ChainsState := ChainsState.init wSources wChains []

/-- State after storing observation `wCs1` for the known pair (A, X). -/
def c3St1 : ChainsState := (c3St0.update "A" "X" wCs1).1

/-- State after an update for source B and the chain id `Z`, which is absent
from the registry. -/
def c3St2 : ChainsState := (c3St1.update "B" "Z" wCs2).1

/-- C3: an update whose chain id `Z` is not in the registry is not rejected:
`findIndex` yields -1, the flattened index becomes `1 * 1 + (-1) = 0`, and the
stored observation of the unrelated known pair (A, X) (slot `getIdx 0 0`) is
overwritten by the bogus update. -/
theorem c3_unknown_id_mutates_state :
    c3St1.states (c3St1.getIdx 0 0) = some wCs1
    ∧ c3St2.states (c3St2.getIdx 0 0) = some wCs2 := by
  constructor
  · decide
  · decide

/-- A decoded frame, dispatched on its `type` discriminant: `init`, `update`,
or anything else (ignored). -/
inductive Msg
  | init (sources : List Source) (chains : List Chain)
  | update (source : String) (chain : String) (state : ChainState)
  | other

/-- The `App` state: the reconnect-attempt counter and the current
`ChainsState` (absent until the first init frame). -/
structure App where
  reconnectCount : Nat
  chains : Option ChainsState

/-- The socket `open` handler: it only switches the connection banner
(`showConnected`); it does not touch `reconnectCount`. -/
def App.onOpen (a : App) : App := a

/-- The socket `message` handler: sets `app.reconnectCount = 0` for every
decoded message, then dispatches on `msg.type` (an init constructs a fresh
`ChainsState` with the stored preference mapping `prefs`; an update before
any init faults in JS and is modelled as leaving the state unchanged). -/
def App.onMessage (a : App) (msg : Msg) (prefs : List String) : App :=
  let a := { a with reconnectCount := 0 }
  match msg with
  | .init sources chains => { a with chains := some (ChainsState.init sources chains prefs) }
  | .update source chain state =>
    match a.chains with
    | some st => { a with chains := some ((st.update source chain state).1) }
    | none => a
  | .other => a

/-- The socket `close` handler: compute
`reconnectDelay = Math.min(60000, 1000 * app.reconnectCount * (Math.random() + 0.5))`
— the random factor `r = Math.random() + 0.5` lies in `[0.5, 1.5]` — then
increment the counter. Returns the new state and the delay in milliseconds. -/
def App.onClose (a : App) (r : ℚ) : App × ℚ :=
  let reconnectDelay := min 60000 (1000 * (a.reconnectCount : ℚ) * r)
  ({ a with reconnectCount := a.reconnectCount + 1 }, reconnectDelay)

/-- C4: the computed reconnect delay always lies within [0 ms, 60000 ms]
whatever the attempt count and the random factor in [0.5, 1.5]; but the
retry-attempt counter is *not* reset at the `open` (Connected) transition —
the `open` handler leaves it untouched — it is instead reset to 0 by every
received message. -/
theorem c4_delay_bounded_reset_per_message (a : App) (r : ℚ) (msg : Msg)
    (prefs : List String) (h1 : 1/2 ≤ r) (_h2 : r ≤ 3/2) :
    (0 ≤ (a.onClose r).2 ∧ (a.onClose r).2 ≤ 60000)
    ∧ (App.onOpen ⟨5, none⟩).reconnectCount = 5
    ∧ (a.onMessage msg prefs).reconnectCount = 0 := by
  refine ⟨⟨?_, ?_⟩, rfl, ?_⟩
  · refine le_min (by norm_num) ?_
    have hr : (0 : ℚ) ≤ r := le_trans (by norm_num) h1
    have hn : (0 : ℚ) ≤ (a.reconnectCount : ℚ) := Nat.cast_nonneg _
    have := mul_nonneg (mul_nonneg (by norm_num : (0:ℚ) ≤ 1000) hn) hr
    simpa [App.onClose] using this
  · exact min_le_left _ _
  · obtain ⟨n, ch⟩ := a
    cases msg with
    | init sources chains => rfl
    | update source chain state => cases ch <;> rfl
    | other => rfl

theorem c4_witness :
    ((1 : ℚ)/2 ≤ 1 ∧ (1 : ℚ) ≤ 3/2)
    ∧ ((0 ≤ (App.onClose ⟨5, none⟩ 1).2 ∧ (App.onClose ⟨5, none⟩ 1).2 ≤ 60000)
        ∧ (App.onOpen ⟨5, none⟩).reconnectCount = 5
        ∧ (App.onMessage ⟨5, none⟩ Msg.other []).reconnectCount = 0) :=
  ⟨⟨by norm_num, by norm_num⟩,
    c4_delay_bounded_reset_per_message ⟨5, none⟩ 1 Msg.other [] (by norm_num) (by norm_num)⟩

/-- An observation as the spec's data model describes it:
height, hash, firstSeenTs, lastCheckedTs. -/
structure Observation where
  height : Nat
  hash : String
  firstSeenTs : Nat
  lastCheckedTs : Nat
deriving DecidableEq, Repr

/-- Modelled from the spec: the backend `StateMatrix.apply` operation, whose
implementation (the Rust backend computing `first_seen_ts`/`last_checked_ts`)
is not among the given sources — the frontend only stores the observations the
backend sends. Following the spec: `changed` = previous is absent, or
`previous.height != height`, or `previous.hash != hash`;
`current.firstSeenTs = observedAtTs` if `changed`, else `previous.firstSeenTs`;
`current.lastCheckedTs = observedAtTs` always. Returns the new observation and
the `changed` flag of the delta. -/
def StateMatrix.apply (previous : Option Observation) (height : Nat)
    (hash : String) (observedAtTs : Nat) : Observation × Bool :=
  match previous with
  | none => (⟨height, hash, observedAtTs, observedAtTs⟩, true)
  | some p =>
    let changed := p.height != height || p.hash != hash
    (⟨height, hash, if changed then observedAtTs else p.firstSeenTs, observedAtTs⟩, changed)

/-- C5: re-applying an identical (height, hash) observation yields
`changed = false` and carries `firstSeenTs` over unchanged while
`lastCheckedTs` advances to the new observation time; in general
`firstSeenTs` becomes the new observation time exactly when the height or
the hash differs from the previous observation, and is carried over
otherwise. -/
theorem c5_firstSeen_carried_iff_unchanged (p : Observation) (h : Nat)
    (hs : String) (t' : Nat) :
    (StateMatrix.apply (some p) p.height p.hash t').2 = false
    ∧ (StateMatrix.apply (some p) p.height p.hash t').1.firstSeenTs = p.firstSeenTs
    ∧ (StateMatrix.apply (some p) h hs t').1.lastCheckedTs = t'
    ∧ (StateMatrix.apply (some p) h hs t').1.firstSeenTs
        = (if h ≠ p.height ∨ hs ≠ p.hash then t' else p.firstSeenTs) := by
  refine ⟨?_, ?_, rfl, ?_⟩
  · simp [StateMatrix.apply]
  · simp [StateMatrix.apply]
  · by_cases h1 : h = p.height <;> by_cases h2 : hs = p.hash <;>
      simp [StateMatrix.apply, h1, h2, bne_iff_ne, Ne.symm]

/-- The underlying `localStorage` slot for the `enableSoundFor` key, as the
preference loader sees it: absent (`getItem` returns `null`), holding the
serialization of a mapping `m` (which `JSON.parse` parses back to `m`), or
holding a string `s` that is not valid JSON (on which `JSON.parse` throws a
`SyntaxError`; an empty such string is falsy and never reaches the parser). -/
inductive StorageVal
  | absent
  | stored (m : List String)
  | corrupt (s : String)

/-- `loadEnableSoundFor()`:
`JSON.parse(window.localStorage.getItem('enableSoundFor') || '\x7b\x7d')`.
A `null` (absent) or falsy (empty-string) value is replaced by the
empty-object literal before parsing, yielding the empty mapping; a non-empty
unparsable value reaches `JSON.parse`, which throws — modelled as
`Except.error`. -/
def ChainsState.loadEnableSoundFor : StorageVal → Except String (List String)
  | .absent => Except.ok []
  | .stored m => Except.ok m
  | .corrupt s => if s = "" then Except.ok [] else Except.error "SyntaxError"

/-- C6 counterexample: with the underlying storage holding the unparsable
value "oops", `loadEnableSoundFor` raises (a `SyntaxError` escapes) instead
of returning the empty mapping, refuting "load() never raises". -/
theorem c6_counterexample :
    ChainsState.loadEnableSoundFor (StorageVal.corrupt "oops")
        = Except.error "SyntaxError"
    ∧ ChainsState.loadEnableSoundFor (StorageVal.corrupt "oops")
        ≠ Except.ok [] := by
  have h : ChainsState.loadEnableSoundFor (StorageVal.corrupt "oops")
      = Except.error "SyntaxError" := rfl
  exact ⟨h, by rw [h]; exact fun hk => Except.noConfusion hk⟩

/-- C6 amended: `load()` returns the empty mapping when the underlying
storage is absent (or holds the falsy empty string), returns the stored
mapping when it is parsable, but raises a `SyntaxError` when the storage
holds a non-empty unparsable value. -/
theorem c6_amended_load_behaviour (m : List String) (s : String) (hs : s ≠ "") :
    ChainsState.loadEnableSoundFor StorageVal.absent = Except.ok []
    ∧ ChainsState.loadEnableSoundFor (StorageVal.corrupt "") = Except.ok []
    ∧ ChainsState.loadEnableSoundFor (StorageVal.stored m) = Except.ok m
    ∧ ChainsState.loadEnableSoundFor (StorageVal.corrupt s)
        = Except.error "SyntaxError" := by
  refine ⟨rfl, rfl, rfl, ?_⟩
  simp [ChainsState.loadEnableSoundFor, hs]

theorem c6_witness :
    ("x" : String) ≠ ""
    ∧ (ChainsState.loadEnableSoundFor StorageVal.absent = Except.ok []
        ∧ ChainsState.loadEnableSoundFor (StorageVal.corrupt "") = Except.ok []
        ∧ ChainsState.loadEnableSoundFor (StorageVal.stored ["A###X"]) = Except.ok ["A###X"]
        ∧ ChainsState.loadEnableSoundFor (StorageVal.corrupt "x")
            = Except.error "SyntaxError") :=
  ⟨by decide, c6_amended_load_behaviour ["A###X"] "x" (by decide)⟩

/-- `MAX_BACKEND_SOURCE_CHECK_PERIOD_SECS = 60`: the maximum time between
source updates that the backend can guarantee, set in the constructor. -/
def MAX_BACKEND_SOURCE_CHECK_PERIOD_SECS : Nat := 60

/-- The CSS classes `renderTable` adds to a pair's table cell: for a present
`chainState`, the sound-preference class, then `at-chainhead` iff
`diff = chainState.height - bestHeight >= -1` (else `not-at-chainhead`),
`just-increased` iff `stalenessSecs = nowTs - chainState.firstSeenTs < 25`,
and `stale` iff
`stalenessSecs > Math.max(chain.blockTimeSecs * 3, MAX_BACKEND_SOURCE_CHECK_PERIOD_SECS)`;
for an absent `chainState`, only `missing-state`. -/
def cellClasses (chain : Chain) (bestHeight : Nat) (chainState : Option ChainState)
    (nowTs : Int) (soundEnabled : Bool) : List String :=
  match chainState with
  | none => ["missing-state"]
  | some cs =>
    let diff : Int := (cs.height : Int) - (bestHeight : Int)
    let stalenessSecs : Int := nowTs - (cs.firstSeenTs : Int)
    (if soundEnabled then ["sound-enabled"] else ["sound-disabled"])
      ++ (if diff ≥ -1 then ["at-chainhead"] else ["not-at-chainhead"])
      ++ (if stalenessSecs < 25 then ["just-increased"] else [])
      ++ (if stalenessSecs > ((max (chain.blockTimeSecs * 3)
            MAX_BACKEND_SOURCE_CHECK_PERIOD_SECS : Nat) : Int) then ["stale"] else [])

/-- C7: a rendered cell is classified `at-chainhead` exactly when
`diff = height - bestHeight >= -1`, and `not-at-chainhead` otherwise; in
particular a source one block behind (99 against best 100, diff = -1) is at
head, and one twenty blocks behind (80 against best 100, diff = -20) is not. -/
theorem c7_atHead_iff_diff_ge_neg_one (chain : Chain) (cs : ChainState)
    (bestHeight : Nat) (nowTs : Int) (soundEnabled : Bool) :
    ("at-chainhead" ∈ cellClasses chain bestHeight (some cs) nowTs soundEnabled
        ↔ (cs.height : Int) - (bestHeight : Int) ≥ -1)
    ∧ ("not-at-chainhead" ∈ cellClasses chain bestHeight (some cs) nowTs soundEnabled
        ↔ ¬ ((cs.height : Int) - (bestHeight : Int) ≥ -1))
    ∧ "at-chainhead" ∈ cellClasses ⟨"X", "Chain X", 600⟩ 100 (some ⟨99, "h2", 1000⟩) 1001 false
    ∧ "not-at-chainhead" ∈ cellClasses ⟨"X", "Chain X", 600⟩ 100 (some ⟨80, "h3", 1002⟩) 1003 false := by
  refine ⟨?_, ?_, by decide, by decide⟩
  · by_cases hd : (cs.height : Int) - (bestHeight : Int) ≥ -1 <;>
      simp [cellClasses, hd] <;> split_ifs <;> simp
  · by_cases hd : (cs.height : Int) - (bestHeight : Int) ≥ -1 <;>
      simp [cellClasses, hd] <;> split_ifs <;> simp

/-- C8: a rendered cell is classified `just-increased` (fresh) exactly when
`stalenessSecs = nowTs - firstSeenTs < 25`, and `stale` exactly when
`stalenessSecs` exceeds `max(blockTimeSecs * 3, 60)`, where 60 is the fixed
`MAX_BACKEND_SOURCE_CHECK_PERIOD_SECS` backend re-check period. -/
theorem c8_fresh_and_stale_thresholds (chain : Chain) (cs : ChainState)
    (bestHeight : Nat) (nowTs : Int) (soundEnabled : Bool) :
    ("just-increased" ∈ cellClasses chain bestHeight (some cs) nowTs soundEnabled
        ↔ nowTs - (cs.firstSeenTs : Int) < 25)
    ∧ ("stale" ∈ cellClasses chain bestHeight (some cs) nowTs soundEnabled
        ↔ nowTs - (cs.firstSeenTs : Int)
            > ((max (chain.blockTimeSecs * 3) MAX_BACKEND_SOURCE_CHECK_PERIOD_SECS : Nat) : Int)) := by
  constructor
  · by_cases hf : nowTs - (cs.firstSeenTs : Int) < 25 <;>
      simp [cellClasses, hf] <;> split_ifs <;> simp
  · by_cases hst : nowTs - (cs.firstSeenTs : Int)
        > ((max (chain.blockTimeSecs * 3) MAX_BACKEND_SOURCE_CHECK_PERIOD_SECS : Nat) : Int) <;>
      simp [cellClasses, hst] <;> split_ifs <;> simp

lemma getIdx_eq_of_valid (st : ChainsState) (s1 c1 s2 c2 : Nat)
    (hc1 : c1 < st.chains.length) (hc2 : c2 < st.chains.length)
    (h : st.getIdx ((s1 : Nat) : Int) ((c1 : Nat) : Int)
        = st.getIdx ((s2 : Nat) : Int) ((c2 : Nat) : Int)) :
    s1 = s2 ∧ c1 = c2 := by
  set L := st.chains.length with hL
  have h' : s1 * L + c1 = s2 * L + c2 := by
    simp only [ChainsState.getIdx, ← hL] at h
    exact_mod_cast h
  have hs : s1 = s2 := by
    by_contra hne
    rcases Nat.lt_or_ge s1 s2 with hlt | hge
    · have hstep : s1 * L + c1 < s2 * L + c2 := by
        calc s1 * L + c1 < s1 * L + L := by omega
          _ = (s1 + 1) * L := by ring
          _ ≤ s2 * L := mul_le_mul_right' (by omega) L
          _ ≤ s2 * L + c2 := Nat.le_add_right _ _
      omega
    · have hlt2 : s2 < s1 := lt_of_le_of_ne hge (fun hx => hne hx.symm)
      have hstep : s2 * L + c2 < s1 * L + c1 := by
        calc s2 * L + c2 < s2 * L + L := by omega
          _ = (s2 + 1) * L := by ring
          _ ≤ s1 * L := mul_le_mul_right' (by omega) L
          _ ≤ s1 * L + c1 := Nat.le_add_right _ _
      omega
  subst hs
  exact ⟨rfl, by omega⟩

lemma getIdx_ne_of_ne (st : ChainsState) (s1 c1 s2 c2 : Nat)
    (hc1 : c1 < st.chains.length) (hc2 : c2 < st.chains.length)
    (hne : (s1, c1) ≠ (s2, c2)) :
    st.getIdx ((s1 : Nat) : Int) ((c1 : Nat) : Int)
      ≠ st.getIdx ((s2 : Nat) : Int) ((c2 : Nat) : Int) := by
  intro h
  obtain ⟨ha, hb⟩ := getIdx_eq_of_valid st s1 c1 s2 c2 hc1 hc2 h
  exact hne (by rw [ha, hb])

/-- C9: the flattened slot index `sourceIdx * chains.length + chainIdx` is
injective on pairs with a valid chain index, and therefore an update applied
to one registry-resolvable pair leaves the stored observation of every other
valid slot untouched. -/
theorem c9_slot_injective_frame (st : ChainsState) (source chain : String)
    (cs : ChainState) (s1 c1 s2 c2 : Nat)
    (hc1 : c1 < st.chains.length) (hc2 : c2 < st.chains.length)
    (hs : st.sources.findIdx? (fun element => element.id == source) = some s1)
    (hc : st.chains.findIdx? (fun element => element.id == chain) = some c1)
    (hne : (s1, c1) ≠ (s2, c2)) :
    st.getIdx ((s1 : Nat) : Int) ((c1 : Nat) : Int)
        ≠ st.getIdx ((s2 : Nat) : Int) ((c2 : Nat) : Int)
    ∧ ((st.update source chain cs).1).states (st.getIdx ((s2 : Nat) : Int) ((c2 : Nat) : Int))
        = st.states (st.getIdx ((s2 : Nat) : Int) ((c2 : Nat) : Int)) := by
  have hinj := getIdx_ne_of_ne st s1 c1 s2 c2 hc1 hc2 hne
  refine ⟨hinj, ?_⟩
  have hidx : st.getIdxByIds source chain
      = st.getIdx ((s1 : Nat) : Int) ((c1 : Nat) : Int) := by
    simp only [ChainsState.getIdxByIds, jsFindIndex, hs, hc]
  simp only [ChainsState.update]
  rw [hidx, if_neg (Ne.symm hinj)]

/-- Fixture registry with two chains, for the frame-effect witness. -/
def w2Chains : List Chain := [⟨"X", "Chain X", 600⟩, ⟨"Y", "Chain Y", 60⟩]

/-- Fixture state: fresh init over sources [A, B] and chains [X, Y]. -/
def c9St : ChainsState := ChainsState.init wSources w2Chains []

theorem c9_witness :
    c9St.getIdx (((0 : Nat) : Nat) : Int) (((0 : Nat) : Nat) : Int)
        ≠ c9St.getIdx (((1 : Nat) : Nat) : Int) (((1 : Nat) : Nat) : Int)
    ∧ ((c9St.update "A" "X" wCs1).1).states (c9St.getIdx (((1 : Nat) : Nat) : Int) (((1 : Nat) : Nat) : Int))
        = c9St.states (c9St.getIdx (((1 : Nat) : Nat) : Int) (((1 : Nat) : Nat) : Int)) :=
  c9_slot_injective_frame c9St "A" "X" wCs1 0 0 1 1 (by decide) (by decide)
    (by decide) (by decide) (by decide)

/-- The reachable-state invariant tying observations to `bestHeight`: every
valid chain index has a `bestHeight` entry, and every stored observation's
height is bounded by its chain's `bestHeight`. It holds after an init and is
preserved by updates whose ids resolve in the registry. -/
def ChainsState.Inv (st : ChainsState) : Prop :=
  (∀ c : Nat, c < st.chains.length → ∃ b : Nat, st.bestHeight ((c : Nat) : Int) = some b)
  ∧ ∀ s c : Nat, c < st.chains.length →
      ∀ cs : ChainState, st.states (st.getIdx ((s : Nat) : Int) ((c : Nat) : Int)) = some cs →
        ∃ b : Nat, st.bestHeight ((c : Nat) : Int) = some b ∧ cs.height ≤ b

lemma inv_init (sources : List Source) (chains : List Chain) (prefs : List String) :
    (ChainsState.init sources chains prefs).Inv := by
  constructor
  · intro c hc
    refine ⟨0, ?_⟩
    simp only [ChainsState.init]
    rw [if_pos ⟨Int.ofNat_nonneg c, by exact_mod_cast hc⟩]
  · intro s c hc cs hcs
    simp [ChainsState.init] at hcs

lemma ChainsState.update_getIdx (st : ChainsState) (source chain : String)
    (cs : ChainState) (a b : Int) :
    ((st.update source chain cs).1).getIdx a b = st.getIdx a b := rfl

lemma inv_update (st : ChainsState) (source chain : String) (cs : ChainState)
    (s1 c1 : Nat)
    (hs1 : st.sources.findIdx? (fun element => element.id == source) = some s1)
    (hc1 : st.chains.findIdx? (fun element => element.id == chain) = some c1)
    (hc1len : c1 < st.chains.length)
    (hinv : st.Inv) : ((st.update source chain cs).1).Inv := by
  obtain ⟨hbh, hobs⟩ := hinv
  have hidx : st.getIdxByIds source chain
      = st.getIdx ((s1 : Nat) : Int) ((c1 : Nat) : Int) := by
    simp only [ChainsState.getIdxByIds, jsFindIndex, hs1, hc1]
  have hgci : st.getChainIdx chain = ((c1 : Nat) : Int) := by
    simp only [ChainsState.getChainIdx, jsFindIndex, hc1]
  constructor
  · intro c hc
    obtain ⟨b, hb⟩ := hbh c hc
    exact ⟨_, st.update_bestHeight_at source chain cs c b hb⟩
  · intro s c hc cs' hcs'
    rw [ChainsState.update_getIdx] at hcs'
    simp only [ChainsState.update] at hcs'
    by_cases heq : st.getIdx ((s : Nat) : Int) ((c : Nat) : Int)
        = st.getIdxByIds source chain
    · have hcc : s = s1 ∧ c = c1 := by
        apply getIdx_eq_of_valid st s c s1 c1 hc hc1len
        rw [← hidx]; exact heq
      have hcs_eq : cs' = cs := by
        rw [if_pos heq] at hcs'
        exact (Option.some.inj hcs').symm
      obtain ⟨b, hb⟩ := hbh c1 hc1len
      refine ⟨if st.getChainIdx chain = ((c1 : Nat) : Int) then max b cs.height else b, ?_, ?_⟩
      · rw [hcc.2]
        exact st.update_bestHeight_at source chain cs c1 b hb
      · rw [hgci, if_pos rfl, hcs_eq]
        exact le_max_right _ _
    · have hold : st.states (st.getIdx ((s : Nat) : Int) ((c : Nat) : Int)) = some cs' := by
        rwa [if_neg heq] at hcs'
      obtain ⟨b, hb, hle⟩ := hobs s c hc cs' hold
      refine ⟨if st.getChainIdx chain = ((c : Nat) : Int) then max b cs.height else b,
        st.update_bestHeight_at source chain cs c b hb, ?_⟩
      split_ifs
      · exact le_trans hle (le_max_left _ _)
      · exact hle

/-- C10: observations are last-write-wins. In any state satisfying the
reachable-state invariant, applying an update for a registry-known pair with
a height lower than the stored one replaces the stored observation with the
new one, while every `bestHeight` entry is left unchanged. -/
theorem c10_last_write_wins (st : ChainsState) (source chain : String)
    (cs2 : ChainState) (s1 c1 : Nat) (cs1 : ChainState) (i : Int)
    (hinv : st.Inv)
    (hs1 : st.sources.findIdx? (fun element => element.id == source) = some s1)
    (hc1 : st.chains.findIdx? (fun element => element.id == chain) = some c1)
    (hc1len : c1 < st.chains.length)
    (hstored : st.states (st.getIdx ((s1 : Nat) : Int) ((c1 : Nat) : Int)) = some cs1)
    (hlt : cs2.height < cs1.height) :
    ((st.update source chain cs2).1).states (st.getIdx ((s1 : Nat) : Int) ((c1 : Nat) : Int))
        = some cs2
    ∧ ((st.update source chain cs2).1).bestHeight i = st.bestHeight i := by
  obtain ⟨hbh, hobs⟩ := hinv
  have hidx : st.getIdxByIds source chain
      = st.getIdx ((s1 : Nat) : Int) ((c1 : Nat) : Int) := by
    simp only [ChainsState.getIdxByIds, jsFindIndex, hs1, hc1]
  have hgci : st.getChainIdx chain = ((c1 : Nat) : Int) := by
    simp only [ChainsState.getChainIdx, jsFindIndex, hc1]
  obtain ⟨b, hb, hle⟩ := hobs s1 c1 hc1len cs1 hstored
  have hnb : jsUndefLt (st.bestHeight (st.getChainIdx chain)) cs2.height = false := by
    rw [hgci, hb]
    simp only [jsUndefLt, decide_eq_false_iff_not]
    omega
  constructor
  · simp only [ChainsState.update]
    rw [hidx, if_pos rfl]
  · simp only [ChainsState.update, hnb]
    simp

theorem c10_witness :
    ((c3St1.update "A" "X" ⟨50, "h9", 1500⟩).1).states
        (c3St1.getIdx (((0 : Nat) : Nat) : Int) (((0 : Nat) : Nat) : Int)) = some ⟨50, "h9", 1500⟩
    ∧ ((c3St1.update "A" "X" ⟨50, "h9", 1500⟩).1).bestHeight 0 = c3St1.bestHeight 0 :=
  c10_last_write_wins c3St1 "A" "X" ⟨50, "h9", 1500⟩ 0 0 wCs1 0
    (inv_update c3St0 "A" "X" wCs1 0 0 (by decide) (by decide) (by decide)
      (inv_init wSources wChains []))
    (by decide) (by decide) (by decide) (by decide) (by decide)
